import Mathlib

/-
Verification of the off-chain core of fms-faisal/fl-vcs-blockchain:
the content-addressed artifact store (src/ledger/ipfs_store.py), the
commit-identifier derivation of the commit CLI command
(src/cli/flvcs.py), and the deployment script (scripts/deploy.py).

Bytes are modelled as lists of Nat (each value below 256 where the code
produces bytes); machine words are Nat with explicit reduction modulo
2^32 or 2^64 where overflow matters.
-/

set_option maxRecDepth 100000

namespace FLVCS

/-! ### Byte and hex utilities -/

/-- Big-endian byte representation of a natural number on k bytes. -/
def beBytes (k n : Nat) : List Nat :=
  (List.range k).map (fun i => n / 256 ^ (k - 1 - i) % 256)

/-- Little-endian byte representation of a natural number on k bytes. -/
def leBytes (k n : Nat) : List Nat :=
  (List.range k).map (fun i => n / 256 ^ i % 256)

/-- Little-endian interpretation of a byte list as a natural number. -/
def leWord (bytes : List Nat) : Nat :=
  bytes.foldr (fun b acc => acc * 256 + b) 0

/-- Lowercase hexadecimal digit character for a nibble (values below 16). -/
def hexDigitChar (n : Nat) : Char :=
  if n < 10 then Char.ofNat (48 + n) else Char.ofNat (87 + n)

/-- Two lowercase hex characters of a byte, as produced by hexdigest. -/
def byteToHex (b : Nat) : List Char :=
  [hexDigitChar (b / 16 % 16), hexDigitChar (b % 16)]

/-- Lowercase hex characters of a byte list (Python hexdigest). -/
def bytesToHex : List Nat → List Char
  | [] => []
  | b :: bs => byteToHex b ++ bytesToHex bs

/-- UTF-8 bytes of a string; the strings appearing in this program are
ASCII, for which UTF-8 coincides with the code points. -/
def strBytes (s : String) : List Nat :=
  s.data.map Char.toNat

/-- Value of one hex character, accepting both cases as bytes.fromhex
does; none for a non-hex character. -/
def hexVal? (c : Char) : Option Nat :=
  if 48 ≤ c.toNat ∧ c.toNat ≤ 57 then some (c.toNat - 48)
  else if 97 ≤ c.toNat ∧ c.toNat ≤ 102 then some (c.toNat - 87)
  else if 65 ≤ c.toNat ∧ c.toNat ≤ 70 then some (c.toNat - 55)
  else none

/-- Model of Python bytes.fromhex on a character list with spaces already
allowed between pairs: fails on odd length or a non-hex character. -/
def parseHexBytes : List Char → Option (List Nat)
  | [] => some []
  | [_] => none
  | c1 :: c2 :: rest => do
    let hi ← hexVal? c1
    let lo ← hexVal? c2
    let tail ← parseHexBytes rest
    pure ((16 * hi + lo) :: tail)

/-- Total hex-to-bytes conversion used to model Web3.to_bytes on hex text
this program itself generated (always valid lowercase hex of even
length); junk digits map to 0, a dangling character is dropped. -/
def hexToBytes : List Char → List Nat
  | c1 :: c2 :: rest =>
      (16 * (hexVal? c1).getD 0 + (hexVal? c2).getD 0) :: hexToBytes rest
  | _ => []

/-- Fixed-size chunking with explicit fuel so that the kernel can reduce
it; fuel at least the list length splits the whole list. -/
def chunks (size : Nat) : Nat → List Nat → List (List Nat)
  | 0, _ => []
  | _ + 1, [] => []
  | fuel + 1, l => l.take size :: chunks size fuel (l.drop size)

/-! ### SHA-256 (hashlib.sha256), bytes in, 32 bytes out -/

/-- Modulus for 32-bit words. -/
def M32 : Nat := 4294967296

/-- Right rotation of a 32-bit word. -/
def rotr32 (x n : Nat) : Nat :=
  ((x >>> n) ||| (x <<< (32 - n))) % M32

/-- SHA-256 round constants of FIPS 180-4, written in decimal. -/
def shaK : List Nat :=
  [1116352408, 1899447441, 3049323471, 3921009573,
   961987163, 1508970993, 2453635748, 2870763221,
   3624381080, 310598401, 607225278, 1426881987,
   1925078388, 2162078206, 2614888103, 3248222580,
   3835390401, 4022224774, 264347078, 604807628,
   770255983, 1249150122, 1555081692, 1996064986,
   2554220882, 2821834349, 2952996808, 3210313671,
   3336571891, 3584528711, 113926993, 338241895,
   666307205, 773529912, 1294757372, 1396182291,
   1695183700, 1986661051, 2177026350, 2456956037,
   2730485921, 2820302411, 3259730800, 3345764771,
   3516065817, 3600352804, 4094571909, 275423344,
   430227734, 506948616, 659060556, 883997877,
   958139571, 1322822218, 1537002063, 1747873779,
   1955562222, 2024104815, 2227730452, 2361852424,
   2428436474, 2756734187, 3204031479, 3329325298]

/-- SHA-256 initial hash state of FIPS 180-4, written in decimal. -/
def shaH0 : List Nat :=
  [1779033703, 3144134277, 1013904242, 2773480762,
   1359893119, 2600822924, 528734635, 1541459225]

/-- SHA-256 padding: one 0x80 byte, zeros, then the 64-bit big-endian
bit length, reaching a multiple of 64 bytes. -/
def shaPad (msg : List Nat) : List Nat :=
  msg ++ 0x80 :: List.replicate ((119 - msg.length % 64) % 64) 0
      ++ beBytes 8 (8 * msg.length)

/-- Big-endian 32-bit words of a byte list. -/
def wordsOfBytes : List Nat → List Nat
  | b0 :: b1 :: b2 :: b3 :: rest =>
      (((b0 * 256 + b1) * 256 + b2) * 256 + b3) :: wordsOfBytes rest
  | _ => []

/-- Message-schedule extension: appends fuel further words to w. -/
def shaExt : Nat → List Nat → List Nat
  | 0, w => w
  | fuel + 1, w =>
    let i := w.length
    let w15 := w.getD (i - 15) 0
    let w2 := w.getD (i - 2) 0
    let s0 := rotr32 w15 7 ^^^ rotr32 w15 18 ^^^ (w15 >>> 3)
    let s1 := rotr32 w2 17 ^^^ rotr32 w2 19 ^^^ (w2 >>> 10)
    shaExt fuel (w ++ [(w.getD (i - 16) 0 + s0 + w.getD (i - 7) 0 + s1) % M32])

/-- One step of the SHA-256 compression loop over paired round constants
and schedule words. -/
def shaComp : List Nat → List Nat → List Nat → List Nat
  | [], _, regs => regs
  | _, [], regs => regs
  | k :: ks, w :: ws, regs =>
    let a := regs.getD 0 0
    let b := regs.getD 1 0
    let c := regs.getD 2 0
    let d := regs.getD 3 0
    let e := regs.getD 4 0
    let f := regs.getD 5 0
    let g := regs.getD 6 0
    let hh := regs.getD 7 0
    let sig1 := rotr32 e 6 ^^^ rotr32 e 11 ^^^ rotr32 e 25
    let ch := (e &&& f) ^^^ ((e ^^^ 0xffffffff) &&& g)
    let t1 := (hh + sig1 + ch + k + w) % M32
    let sig0 := rotr32 a 2 ^^^ rotr32 a 13 ^^^ rotr32 a 22
    let maj := (a &&& b) ^^^ (a &&& c) ^^^ (b &&& c)
    let t2 := (sig0 + maj) % M32
    shaComp ks ws [(t1 + t2) % M32, a, b, c, (d + t1) % M32, e, f, g]

/-- Processes one 64-byte block into the running hash state. -/
def shaBlock (regs block : List Nat) : List Nat :=
  let w := shaExt 48 (wordsOfBytes block)
  let r := shaComp shaK w regs
  (List.range 8).map (fun i => (regs.getD i 0 + r.getD i 0) % M32)

/-- SHA-256 digest (32 bytes) of a byte list. -/
def sha256 (msg : List Nat) : List Nat :=
  let padded := shaPad msg
  let final := (chunks 64 padded.length padded).foldl shaBlock shaH0
  List.flatten (final.map (beBytes 4))

/-- Lowercase hex digest of SHA-256, as hashlib hexdigest returns. -/
def sha256Hex (msg : List Nat) : String :=
  ⟨bytesToHex (sha256 msg)⟩

/-! ### Keccak-256 (Web3.keccak), the Ethereum pre-NIST variant -/

/-- Modulus for 64-bit lanes. -/
def M64 : Nat := 18446744073709551616

/-- Left rotation of a 64-bit lane. -/
def rotl64 (x n : Nat) : Nat :=
  ((x <<< n) ||| (x >>> (64 - n))) % M64

/-- Keccak round constants for the 24 rounds of Keccak-f[1600],
written in decimal. -/
def keccakRC : List Nat :=
  [1, 32898, 9223372036854808714,
   9223372039002292224, 32907, 2147483649,
   9223372039002292353, 9223372036854808585, 138,
   136, 2147516425, 2147483658,
   2147516555, 9223372036854775947, 9223372036854808713,
   9223372036854808579, 9223372036854808578, 9223372036854775936,
   32778, 9223372039002259466, 9223372039002292353,
   9223372036854808704, 2147483649, 9223372039002292232]

/-- Source lane index for each target lane of the combined rho-pi step,
with the state flattened as index x + 5 * y. -/
def piSrc : List Nat :=
  [0, 6, 12, 18, 24, 3, 9, 10, 16, 22, 1, 7, 13, 19, 20,
   4, 5, 11, 17, 23, 2, 8, 14, 15, 21]

/-- Rotation amount for each target lane of the combined rho-pi step. -/
def piRot : List Nat :=
  [0, 44, 43, 21, 14, 28, 20, 3, 45, 61, 1, 6, 25, 8, 18,
   27, 36, 10, 15, 56, 62, 55, 39, 41, 2]

/-- Theta step of Keccak-f on the 25-lane flattened state. -/
def thetaStep (st : List Nat) : List Nat :=
  let c := (List.range 5).map (fun x =>
    st.getD x 0 ^^^ st.getD (x + 5) 0 ^^^ st.getD (x + 10) 0 ^^^
      st.getD (x + 15) 0 ^^^ st.getD (x + 20) 0)
  let d := (List.range 5).map (fun x =>
    c.getD ((x + 4) % 5) 0 ^^^ rotl64 (c.getD ((x + 1) % 5) 0) 1)
  (List.range 25).map (fun i => st.getD i 0 ^^^ d.getD (i % 5) 0)

/-- Combined rho and pi steps of Keccak-f. -/
def rhoPiStep (st : List Nat) : List Nat :=
  (List.range 25).map (fun i => rotl64 (st.getD (piSrc.getD i 0) 0) (piRot.getD i 0))

/-- Chi step of Keccak-f; lane complement is xor with 2^64 - 1. -/
def chiStep (st : List Nat) : List Nat :=
  (List.range 25).map (fun i =>
    let row := 5 * (i / 5)
    let b1 := st.getD (row + (i + 1) % 5) 0
    let b2 := st.getD (row + (i + 2) % 5) 0
    st.getD i 0 ^^^ ((b1 ^^^ (M64 - 1)) &&& b2))

/-- Iota step: xors the round constant into lane 0. -/
def iotaStep (st : List Nat) (rc : Nat) : List Nat :=
  match st with
  | a :: rest => (a ^^^ rc) :: rest
  | [] => []

/-- Keccak-f[1600] permutation over the flattened 25-lane state. -/
def keccakF (st : List Nat) : List Nat :=
  keccakRC.foldl (fun s rc => iotaStep (chiStep (rhoPiStep (thetaStep s))) rc) st

/-- Multi-rate padding with suffix 0x01 (the pre-NIST Keccak variant used
by Ethereum; NIST SHA3-256 would use 0x06), rate 136 bytes. -/
def keccakPad (msg : List Nat) : List Nat :=
  let padLen := 136 - msg.length % 136
  msg ++ (if padLen = 1 then [0x81]
          else 0x01 :: List.replicate (padLen - 2) 0 ++ [0x80])

/-- The 17 rate lanes of one 136-byte block, little-endian per lane. -/
def blockLanes (block : List Nat) : List Nat :=
  (List.range 17).map (fun i => leWord ((block.drop (8 * i)).take 8))

/-- Absorbs one 136-byte block: xor into the rate lanes, then permute. -/
def absorbBlock (st block : List Nat) : List Nat :=
  keccakF ((List.range 25).map (fun i => st.getD i 0 ^^^ (blockLanes block).getD i 0))

/-- Keccak-256 digest (32 bytes) of a byte list. -/
def keccak256 (msg : List Nat) : List Nat :=
  let padded := keccakPad msg
  let st := (chunks 136 padded.length padded).foldl absorbBlock (List.replicate 25 0)
  List.flatten ((List.range 4).map (fun i => leBytes 8 (st.getD i 0)))

/-! ### LocalIPFS (src/ledger/ipfs_store.py)

The storage root directory is a mapping from file name (the lowercase
hex digest) to file contents, modelled as an association list whose
lookup finds the most recent entry for a key. -/

/-- State of the local content store directory. -/
def Store : Type := List (String × List Nat)

/-- Lookup of the file stored under a name, if any. -/
def lookupStore : Store → String → Option (List Nat)
  | [], _ => none
  | (k, v) :: rest, key => if k = key then some v else lookupStore rest key

/-- Model of LocalIPFS.add_bytes: computes the sha256 hexdigest, writes
the payload under that name only when no such file exists, and returns
the new store state with the (digest, uri) pair. -/
def addBytes (st : Store) (data : List Nat) : Store × String × String :=
  let h := sha256Hex data
  let st' := if (lookupStore st h).isSome then st else (h, data) :: st
  (st', h, "ipfs://" ++ h)

/-- The pattern removed by cid.replace in LocalIPFS.get. -/
def ipfsPat : List Char := ['i', 'p', 'f', 's', ':', '/', '/']

/-- Model of Python str.replace with the empty replacement: removes every
non-overlapping occurrence of the 7-character pattern, scanning left to
right. The fuel argument makes the recursion structural; any fuel at
least the list length removes all occurrences. -/
def stripAllF : Nat → List Char → List Char
  | 0, l => l
  | _ + 1, [] => []
  | fuel + 1, c :: rest =>
    if (c :: rest).take 7 = ipfsPat then stripAllF fuel ((c :: rest).drop 7)
    else c :: stripAllF fuel rest

/-- Key resolution of LocalIPFS.get: cid.replace removing the scheme. -/
def resolveCid (cid : String) : String :=
  ⟨stripAllF cid.data.length cid.data⟩

/-- Failure taxonomy of the store reader: a missing object is reported as
not-found (FileNotFoundError), distinguishable from a generic storage
failure (other OSError). -/
inductive StoreErr where
  | notFound
  | storageFailure
deriving DecidableEq

/-- Model of LocalIPFS.get: strips the scheme from the cid and reads the
file under the resolved name, failing with notFound when absent. -/
def getStore (st : Store) (cid : String) : Except StoreErr (List Nat) :=
  match lookupStore st (resolveCid cid) with
  | some b => Except.ok b
  | none => Except.error StoreErr.notFound

/-! ### Commit identifier derivation and the commit command
(src/cli/flvcs.py) -/

/-- Tail encoding of an ABI string value: 32-byte length word, then the
UTF-8 bytes right-padded with zeros to a multiple of 32 bytes. -/
def stringTail (u : List Nat) : List Nat :=
  beBytes 32 u.length ++ u ++ List.replicate ((32 - u.length % 32) % 32) 0

/-- The eth-abi encoding of types
bytes32[], uint64, bytes32, bytes32, bytes32, string for the commit
fields: a six-word head whose dynamic slots carry byte offsets (the
parents array starts right after the 192-byte head, the string right
after the parents tail), then the parents tail (length word plus one
32-byte word per parent) and the string tail. -/
def abiEncodeCommit (parents : List (List Nat)) (round : Nat)
    (clients hparams ahash uri : List Nat) : List Nat :=
  beBytes 32 192 ++ beBytes 32 round ++ clients ++ hparams ++ ahash
    ++ beBytes 32 (224 + 32 * parents.length)
    ++ beBytes 32 parents.length ++ List.flatten parents
    ++ stringTail uri

/-- Off-chain commit id: Keccak-256 of the canonical ABI encoding. -/
def deriveId (parents : List (List Nat)) (round : Nat)
    (clients hparams ahash uri : List Nat) : List Nat :=
  keccak256 (abiEncodeCommit parents round clients hparams ahash uri)

/-- Scores sub-record submitted with a commit. -/
structure Scores where
  accTimes1e4 : Nat
  lossTimes1e4 : Nat

/-- The commit_input record the CLI submits to CommitLedger.addCommit. -/
structure CommitInput where
  id : List Nat
  parents : List (List Nat)
  round : Nat
  clientsHash : List Nat
  hyperparamsHash : List Nat
  artifactHash : List Nat
  artifactURI : String
  scores : Scores
  aggregatorSig : List Nat

/-- Construction of the submitted record from the artifact bytes, the
round number and the already-resolved parent identifiers, exactly as the
commit command assembles it: the artifact is content-addressed with
sha256, the clients and hyperparameters hashes are fixed Keccak-256
constants, and the id is derived from the other fields. -/
def commitCore (data : List Nat) (round : Nat)
    (parentBytes : List (List Nat)) : CommitInput :=
  let h := sha256Hex data
  let uri := "ipfs://" ++ h
  let clientsHash := keccak256 (strBytes "client1,client2")
  let hyperparamsHash := keccak256 (strBytes "lr=0.01,bs=32")
  let artifactHash := hexToBytes h.data
  { id := deriveId parentBytes round clientsHash hyperparamsHash
      artifactHash (strBytes uri)
    parents := parentBytes
    round := round
    clientsHash := clientsHash
    hyperparamsHash := hyperparamsHash
    artifactHash := artifactHash
    artifactURI := uri
    scores := { accTimes1e4 := 0, lossTimes1e4 := 0 }
    aggregatorSig := [] }

/-- Parent resolution of the commit command: with no parents given, a
single all-zero 32-byte sentinel; otherwise each argument loses its
first two characters (the 0x prefix) and is parsed with bytes.fromhex,
which fails on malformed hex. -/
def parseParents (parents : List String) : Option (List (List Nat)) :=
  if parents = [] then some [List.replicate 32 0]
  else parents.mapM (fun p => parseHexBytes (p.data.drop 2))

/-- The commit command up to ledger submission: parses parents and builds
the record. The guards model the validation eth-abi performs while
encoding: a uint64 must fit in 64 bits and every bytes32 array element
must be exactly 32 bytes, otherwise the command raises instead of
submitting anything. -/
def commit (data : List Nat) (round : Nat)
    (parents : List String) : Option CommitInput :=
  if round < 18446744073709551616 then
    (parseParents parents).bind (fun pbs =>
      if pbs.all (fun p => p.length = 32) then
        some (commitCore data round pbs)
      else none)
  else none

/-! ### Deployment script (scripts/deploy.py)

The chain is abstracted to the effects the script performs on it:
contract creations receive fresh addresses in program order and registry
writes record a Keccak-256 name key with the registered address. The
function body is a statement list executed in order; execution stops at
the first return statement, which models the unconditional Python
return. The source contains a second, duplicated body after that
return. -/

/-- One effectful statement of the deploy function body. The names
listed with a deployment are the constructor arguments (addresses of
previously deployed contracts). -/
inductive DStep where
  | deployC (name : String) (ctorArgNames : List String)
  | registerC (name : String)
  | retAddrs

/-- Chain-facing state built by the deploy script. -/
structure DState where
  nextAddr : Nat
  deployed : List (String × Nat)
  registryMap : List (List Nat × Nat)

/-- Address a contract name was deployed at (0 when unknown). -/
def deployedAddr (s : DState) (name : String) : Nat :=
  match s.deployed.find? (fun e => e.1 = name) with
  | some e => e.2
  | none => 0

/-- Effect of one non-returning statement. -/
def dstep (s : DState) : DStep → DState
  | .deployC name _ =>
      { s with nextAddr := s.nextAddr + 1
               deployed := (name, s.nextAddr) :: s.deployed }
  | .registerC name =>
      { s with registryMap :=
          (keccak256 (strBytes name), deployedAddr s name) :: s.registryMap }
  | .retAddrs => s

/-- Executes a statement list until the first return, producing the final
state and the returned address dictionary, if any. -/
def execD (deployer : Nat) : List DStep → DState → DState × Option (List (String × Nat))
  | [], s => (s, none)
  | .retAddrs :: _, s =>
      (s, some [("REGISTRY_ADDRESS", deployedAddr s "Registry"),
                ("DEPLOYER_ADDRESS", deployer)])
  | stp :: rest, s => execD deployer rest (dstep s stp)

/-- The first body of deploy, as written: four contract creations, three
registry registrations, then the unconditional return. -/
def deployFirstBody : List DStep :=
  [DStep.deployC "Registry" [],
   DStep.deployC "PolicyRegistry" [],
   DStep.deployC "CommitLedger" [],
   DStep.deployC "BranchManager" ["CommitLedger", "PolicyRegistry"],
   DStep.registerC "CommitLedger",
   DStep.registerC "BranchManager",
   DStep.registerC "PolicyRegistry",
   DStep.retAddrs]

/-- The duplicated dead second body that follows the first return in the
source, identical in its chain effects. -/
def deployDeadBody : List DStep :=
  [DStep.deployC "Registry" [],
   DStep.deployC "PolicyRegistry" [],
   DStep.deployC "CommitLedger" [],
   DStep.deployC "BranchManager" ["CommitLedger", "PolicyRegistry"],
   DStep.registerC "CommitLedger",
   DStep.registerC "BranchManager",
   DStep.registerC "PolicyRegistry",
   DStep.retAddrs]

/-- The whole deploy function body as it appears in the source. -/
def deployProgram : List DStep := deployFirstBody ++ deployDeadBody

/-! ### Helper lemmas -/

/-- No hex digit character is the letter opening the scheme pattern. -/
theorem hexDigitChar_ne : ∀ m, m < 16 → hexDigitChar m ≠ 'i' := by decide

theorem byteToHex_ne (b : Nat) : ∀ c ∈ byteToHex b, c ≠ 'i' := by
  intro c hc
  simp only [byteToHex, List.mem_cons, List.not_mem_nil, or_false] at hc
  rcases hc with h | h <;> subst h <;>
    exact hexDigitChar_ne _ (Nat.mod_lt _ (by decide))

theorem bytesToHex_ne (l : List Nat) : ∀ c ∈ bytesToHex l, c ≠ 'i' := by
  induction l with
  | nil => simp [bytesToHex]
  | cons b bs ih =>
    intro c hc
    rw [bytesToHex, List.mem_append] at hc
    rcases hc with h | h
    · exact byteToHex_ne b c h
    · exact ih c h

/-- A character list free of the scheme-opening letter is untouched by
the replace scan, for any fuel. -/
theorem stripAllF_no_i : ∀ (f : Nat) (l : List Char),
    (∀ c ∈ l, c ≠ 'i') → stripAllF f l = l := by
  intro f
  induction f with
  | zero => intro l _; rfl
  | succ f ih =>
    intro l hl
    cases l with
    | nil => rfl
    | cons c rest =>
      have hc : c ≠ 'i' := hl c (by simp)
      have hcond : (c :: rest).take 7 ≠ ipfsPat := by
        have h7 : (c :: rest).take 7 = c :: rest.take 6 := rfl
        rw [h7]
        simp only [ipfsPat]
        intro heq
        injection heq with h1 _
        exact hc h1
      show (if (c :: rest).take 7 = ipfsPat then stripAllF f ((c :: rest).drop 7)
            else c :: stripAllF f rest) = c :: rest
      rw [if_neg hcond]
      exact congrArg (c :: ·) (ih rest (fun d hd => hl d (by simp [hd])))

/-- The replace scan removes a leading scheme pattern in one step. -/
theorem stripAllF_ipfs_append (f : Nat) (l : List Char) :
    stripAllF (f + 1) (ipfsPat ++ l) = stripAllF f l := rfl

/-- A bare hex digest resolves to itself. -/
theorem resolveCid_hexStr (l : List Nat) :
    resolveCid ⟨bytesToHex l⟩ = ⟨bytesToHex l⟩ :=
  congrArg String.mk (stripAllF_no_i _ _ (bytesToHex_ne l))

/-- A scheme-prefixed hex digest resolves to the bare digest. -/
theorem resolveCid_uri (l : List Nat) :
    resolveCid ("ipfs://" ++ String.mk (bytesToHex l)) = ⟨bytesToHex l⟩ := by
  have hdata : ("ipfs://" ++ String.mk (bytesToHex l)).data
      = ipfsPat ++ bytesToHex l := rfl
  unfold resolveCid
  rw [hdata]
  have hlen : (ipfsPat ++ bytesToHex l).length
      = (6 + (bytesToHex l).length) + 1 := by
    simp only [List.length_append, ipfsPat]
    simp
    omega
  rw [hlen, stripAllF_ipfs_append,
      stripAllF_no_i _ _ (bytesToHex_ne l)]

/-- Occurrence count of a key among the stored file names. -/
def countKey : Store → String → Nat
  | [], _ => 0
  | (k1, _) :: rest, k => (if k1 = k then 1 else 0) + countKey rest k

theorem countKey_of_lookup_none :
    ∀ (st : Store) (k : String), lookupStore st k = none → countKey st k = 0 := by
  intro st k
  induction st with
  | nil => intro _; rfl
  | cons e rest ih =>
    intro h
    rw [lookupStore] at h
    rw [countKey]
    by_cases hk : e.1 = k
    · rw [if_pos hk] at h; exact absurd h (by simp)
    · rw [if_neg hk] at h
      rw [if_neg hk, ih h]

theorem lookupStore_none_of_not_mem :
    ∀ (st : Store) (k : String), k ∉ st.map Prod.fst → lookupStore st k = none := by
  intro st k
  induction st with
  | nil => intro _; rfl
  | cons e rest ih =>
    intro h
    rw [List.map_cons, List.mem_cons] at h
    push_neg at h
    rw [lookupStore, if_neg (fun he => h.1 he.symm)]
    exact ih h.2

theorem countKey_of_lookup_some :
    ∀ (st : Store) (k : String) (v : List Nat),
      (st.map Prod.fst).Nodup → lookupStore st k = some v → countKey st k = 1 := by
  intro st k
  induction st with
  | nil => intro v _ h; exact absurd h (by simp [lookupStore])
  | cons e rest ih =>
    intro v hnd h
    rw [List.map_cons, List.nodup_cons] at hnd
    rw [lookupStore] at h
    rw [countKey]
    by_cases hk : e.1 = k
    · rw [if_pos hk]
      have : lookupStore rest k = none := by
        apply lookupStore_none_of_not_mem
        rw [← hk]
        exact hnd.1
      rw [countKey_of_lookup_none rest k this]
    · rw [if_neg hk] at h
      rw [if_neg hk, ih v hnd.2 h]

/-- Swapping the two parents changes the canonical encoding: the two
encodings agree on everything before the parent words, so equality of
the encodings would force the first parent words to coincide. -/
theorem abiEncodeCommit_swap_ne (A B : List Nat) (r : Nat) (c h a u : List Nat)
    (hA : A.length = 32) (hB : B.length = 32) (hne : A ≠ B) :
    abiEncodeCommit [A, B] r c h a u ≠ abiEncodeCommit [B, A] r c h a u := by
  intro heq
  apply hne
  simp only [abiEncodeCommit, List.flatten_cons, List.flatten_nil,
    List.length_cons, List.length_nil, List.append_nil, List.append_assoc] at heq
  have h1 := List.append_cancel_left heq
  have h2 := List.append_cancel_left h1
  have h3 := List.append_cancel_left h2
  have h4 := List.append_cancel_left h3
  have h5 := List.append_cancel_left h4
  have h6 := List.append_cancel_left h5
  have h7 := List.append_cancel_left h6
  have ht := congrArg (List.take 32) h7
  rw [List.take_left' hA, List.take_left' hB] at ht
  exact ht

/-- Execution of a statement list that contains a return statement is
unaffected by anything appended after that return. -/
theorem execD_append_ret (dep : Nat) :
    ∀ (l : List DStep) (s : DState) (rest : List DStep),
      execD dep ((l ++ [DStep.retAddrs]) ++ rest) s
        = execD dep (l ++ [DStep.retAddrs]) s := by
  intro l
  induction l with
  | nil => intro s rest; rfl
  | cons x xs ih =>
    intro s rest
    cases x with
    | retAddrs => rfl
    | deployC n args => exact ih (dstep s (DStep.deployC n args)) rest
    | registerC n => exact ih (dstep s (DStep.registerC n)) rest

/-- Implementation check of SHA-256 against the standard empty-input
test vector. -/
theorem sha256_empty_vector :
    sha256Hex [] = "e3b0c44298fc1c149afbf4c8996fb92427ae41e4649b934ca495991b7852b855" := by
  decide

/-- Implementation check of Keccak-256 against the standard vector for
the three-byte input abc (distinguishing it from NIST SHA3-256). -/
theorem keccak256_abc_vector :
    bytesToHex (keccak256 (strBytes "abc"))
      = "4e03657aea45a94fc7d47ba826c8d667c0d1e6e33a64a036ec44f58fa12d6c45".data := by
  decide

/-! ### Claim theorems -/

/-- C1: for every invocation of the commit operation that reaches
submission, the id field of the submitted record is Keccak-256 of the
ABI encoding of exactly the record's own fields in the order parents,
round, clientsHash, hyperparamsHash, artifactHash, artifactURI, never
assigned independently. -/
theorem commit_id_is_derived :
    ∀ (data : List Nat) (round : Nat) (ps : List String) (rec : CommitInput),
      commit data round ps = some rec →
      rec.id = deriveId rec.parents rec.round rec.clientsHash
        rec.hyperparamsHash rec.artifactHash (strBytes rec.artifactURI) := by
  intro data round ps rec h
  unfold commit at h
  split at h
  · cases hp : parseParents ps with
    | none => rw [hp] at h; exact absurd h (by simp)
    | some pbs =>
      rw [hp] at h
      have h' : (if pbs.all (fun p => p.length = 32) then
          some (commitCore data round pbs) else none) = some rec := h
      split at h'
      · cases h'
        rfl
      · exact absurd h' (by simp)
  · exact absurd h (by simp)

/-- Witness for C1: a concrete root-commit invocation, whose record id
equals the derivation from that record's own fields. -/
theorem commit_id_is_derived_witness :
    commit [0] 1 [] = some (commitCore [0] 1 [List.replicate 32 0])
    ∧ (commitCore [0] 1 [List.replicate 32 0]).id
      = deriveId (commitCore [0] 1 [List.replicate 32 0]).parents
          (commitCore [0] 1 [List.replicate 32 0]).round
          (commitCore [0] 1 [List.replicate 32 0]).clientsHash
          (commitCore [0] 1 [List.replicate 32 0]).hyperparamsHash
          (commitCore [0] 1 [List.replicate 32 0]).artifactHash
          (strBytes (commitCore [0] 1 [List.replicate 32 0]).artifactURI) :=
  ⟨rfl, commit_id_is_derived [0] 1 [] _ rfl⟩

/-- C2: put returns the lowercase hex SHA-256 of the payload as digest
and the scheme-prefixed digest as uri; on the payload hello the digest
is the concrete vector stated in the specification. -/
theorem put_digest_and_uri :
    (∀ (st : Store) (p : List Nat),
      (addBytes st p).2.1 = sha256Hex p
      ∧ (addBytes st p).2.2 = "ipfs://" ++ sha256Hex p)
    ∧ sha256Hex (strBytes "hello")
      = "2cf24dba5fb0a30e26e83b2ac5b9e29e1b161e5c1fa7425e73043362938b9824"
    ∧ (addBytes [] (strBytes "hello")).2.2
      = "ipfs://2cf24dba5fb0a30e26e83b2ac5b9e29e1b161e5c1fa7425e73043362938b9824" :=
  ⟨fun _ _ => ⟨rfl, rfl⟩, by decide, by decide⟩

/-- C3: retrieving the uri returned by put yields the stored payload,
under the content-addressing assumption the source accepts as a given:
the store holds no colliding object under that digest written from
different bytes (put skips the write when the key exists). -/
theorem put_get_roundtrip :
    ∀ (st : Store) (p : List Nat),
      (lookupStore st (sha256Hex p) = none
        ∨ lookupStore st (sha256Hex p) = some p) →
      getStore (addBytes st p).1 (addBytes st p).2.2 = Except.ok p := by
  intro st p hp
  have hres : resolveCid ("ipfs://" ++ sha256Hex p) = sha256Hex p :=
    resolveCid_uri (sha256 p)
  show getStore (if (lookupStore st (sha256Hex p)).isSome then st
      else (sha256Hex p, p) :: st) ("ipfs://" ++ sha256Hex p) = Except.ok p
  unfold getStore
  rw [hres]
  rcases hp with h | h
  · rw [h]
    show (match lookupStore ((sha256Hex p, p) :: st) (sha256Hex p) with
      | some b => Except.ok b
      | none => Except.error StoreErr.notFound) = Except.ok p
    rw [lookupStore, if_pos rfl]
  · rw [h]
    show (match lookupStore st (sha256Hex p) with
      | some b => Except.ok b
      | none => Except.error StoreErr.notFound) = Except.ok p
    rw [h]

/-- Witness for C3: round trip through an empty store. -/
theorem put_get_roundtrip_witness :
    getStore (addBytes [] [42]).1 (addBytes [] [42]).2.2 = Except.ok [42] :=
  put_get_roundtrip [] [42] (Or.inl rfl)

/-- C4: put is idempotent: called twice on the same payload it returns
the same digest-uri pair, the second call leaves the store unchanged,
the store then holds exactly one object under the payload digest, and a
call whose digest already exists changes nothing at all, whatever bytes
sit under that digest (no byte-for-byte re-verification). -/
theorem put_idempotent :
    ∀ (st : Store) (p : List Nat), (st.map Prod.fst).Nodup →
      (addBytes (addBytes st p).1 p).2 = (addBytes st p).2
      ∧ (addBytes (addBytes st p).1 p).1 = (addBytes st p).1
      ∧ countKey (addBytes (addBytes st p).1 p).1 (sha256Hex p) = 1
      ∧ (∀ q, lookupStore st (sha256Hex p) = some q → (addBytes st p).1 = st) := by
  intro st p hnd
  refine ⟨rfl, ?_, ?_, ?_⟩
  · show (if (lookupStore (addBytes st p).1 (sha256Hex p)).isSome
        then (addBytes st p).1 else (sha256Hex p, p) :: (addBytes st p).1)
      = (addBytes st p).1
    cases hc : lookupStore st (sha256Hex p) with
    | none =>
      have h1 : (addBytes st p).1 = (sha256Hex p, p) :: st := by
        show (if (lookupStore st (sha256Hex p)).isSome then st
          else (sha256Hex p, p) :: st) = (sha256Hex p, p) :: st
        rw [hc]
        rfl
      rw [h1, lookupStore, if_pos rfl]
      rfl
    | some v =>
      have h1 : (addBytes st p).1 = st := by
        show (if (lookupStore st (sha256Hex p)).isSome then st
          else (sha256Hex p, p) :: st) = st
        rw [hc]
        rfl
      rw [h1, hc]
      rfl
  · cases hc : lookupStore st (sha256Hex p) with
    | none =>
      have h1 : (addBytes st p).1 = (sha256Hex p, p) :: st := by
        show (if (lookupStore st (sha256Hex p)).isSome then st
          else (sha256Hex p, p) :: st) = (sha256Hex p, p) :: st
        rw [hc]
        rfl
      have h2 : (addBytes (addBytes st p).1 p).1 = (sha256Hex p, p) :: st := by
        show (if (lookupStore (addBytes st p).1 (sha256Hex p)).isSome
            then (addBytes st p).1 else (sha256Hex p, p) :: (addBytes st p).1)
          = (sha256Hex p, p) :: st
        rw [h1, lookupStore, if_pos rfl]
        rfl
      rw [h2, countKey, if_pos rfl, countKey_of_lookup_none st _ hc]
    | some v =>
      have h1 : (addBytes st p).1 = st := by
        show (if (lookupStore st (sha256Hex p)).isSome then st
          else (sha256Hex p, p) :: st) = st
        rw [hc]
        rfl
      have h2 : (addBytes (addBytes st p).1 p).1 = st := by
        show (if (lookupStore (addBytes st p).1 (sha256Hex p)).isSome
            then (addBytes st p).1 else (sha256Hex p, p) :: (addBytes st p).1)
          = st
        rw [h1, hc]
        rfl
      rw [h2]
      exact countKey_of_lookup_some st _ v hnd hc
  · intro q hq
    show (if (lookupStore st (sha256Hex p)).isSome then st
      else (sha256Hex p, p) :: st) = st
    rw [hq]
    rfl

/-- Witness for C4: idempotent put into an empty store. -/
theorem put_idempotent_witness :
    (addBytes (addBytes [] [7]).1 [7]).2 = (addBytes [] [7]).2
    ∧ (addBytes (addBytes [] [7]).1 [7]).1 = (addBytes [] [7]).1
    ∧ countKey (addBytes (addBytes [] [7]).1 [7]).1 (sha256Hex [7]) = 1
    ∧ (∀ q, lookupStore [] (sha256Hex [7]) = some q → (addBytes [] [7]).1 = []) :=
  put_idempotent [] [7] (by simp)

/-- C5: with no parent arguments the commit operation uses exactly one
all-zero 32-byte sentinel parent, both in the submitted record and in
the encoding hashed for the id; the parents sequence is never empty. -/
theorem root_commit_sentinel :
    ∀ (data : List Nat) (round : Nat) (rec : CommitInput),
      commit data round [] = some rec →
      rec.parents.length = 1
      ∧ rec.parents = [List.replicate 32 0]
      ∧ rec.parents ≠ []
      ∧ rec.id = deriveId [List.replicate 32 0] round rec.clientsHash
          rec.hyperparamsHash rec.artifactHash (strBytes rec.artifactURI) := by
  intro data round rec h
  unfold commit at h
  split at h
  · have hp : parseParents [] = some [List.replicate 32 0] := rfl
    rw [hp] at h
    have h' : (if [List.replicate 32 0].all (fun p => p.length = 32) then
        some (commitCore data round [List.replicate 32 0]) else none)
        = some rec := h
    rw [if_pos (by decide)] at h'
    cases h'
    exact ⟨rfl, rfl, by simp [commitCore], rfl⟩
  · exact absurd h (by simp)

/-- Witness for C5: a concrete root commit. -/
theorem root_commit_sentinel_witness :
    (commitCore [] 0 [List.replicate 32 0]).parents.length = 1
    ∧ (commitCore [] 0 [List.replicate 32 0]).parents = [List.replicate 32 0]
    ∧ (commitCore [] 0 [List.replicate 32 0]).parents ≠ []
    ∧ (commitCore [] 0 [List.replicate 32 0]).id
      = deriveId [List.replicate 32 0] 0
          (commitCore [] 0 [List.replicate 32 0]).clientsHash
          (commitCore [] 0 [List.replicate 32 0]).hyperparamsHash
          (commitCore [] 0 [List.replicate 32 0]).artifactHash
          (strBytes (commitCore [] 0 [List.replicate 32 0]).artifactURI) :=
  root_commit_sentinel [] 0 (commitCore [] 0 [List.replicate 32 0]) rfl

/-- C6: no canonical sorting of parents is applied before encoding:
for any two distinct 32-byte parents the two parent orders produce
different canonical encodings, the derived id is by definition
Keccak-256 of that encoding, and on a concrete pair of distinct parents
the two derived ids indeed differ. -/
theorem parent_order_sensitivity :
    (∀ (A B : List Nat) (r : Nat) (c h a u : List Nat),
      A.length = 32 → B.length = 32 → A ≠ B →
      abiEncodeCommit [A, B] r c h a u ≠ abiEncodeCommit [B, A] r c h a u)
    ∧ (∀ ps r c h a u, deriveId ps r c h a u
        = keccak256 (abiEncodeCommit ps r c h a u))
    ∧ deriveId [List.replicate 32 1, List.replicate 32 2] 1
        (List.replicate 32 17) (List.replicate 32 34) (List.replicate 32 51) []
      ≠ deriveId [List.replicate 32 2, List.replicate 32 1] 1
        (List.replicate 32 17) (List.replicate 32 34) (List.replicate 32 51) [] :=
  ⟨fun A B r c h a u hA hB hne => abiEncodeCommit_swap_ne A B r c h a u hA hB hne,
   fun _ _ _ _ _ _ => rfl,
   by decide⟩

/-- Witness for C6: the encoding inequality at a concrete parent pair. -/
theorem parent_order_sensitivity_witness :
    abiEncodeCommit [List.replicate 32 1, List.replicate 32 2] 1 [] [] [] []
      ≠ abiEncodeCommit [List.replicate 32 2, List.replicate 32 1] 1 [] [] [] [] :=
  parent_order_sensitivity.1 (List.replicate 32 1) (List.replicate 32 2)
    1 [] [] [] [] (by simp) (by simp) (by decide)

/-- C7: get accepts the bare hex digest and the scheme-prefixed uri and
resolves both to the same stored object. -/
theorem get_accepts_both_forms :
    ∀ (st : Store) (p b : List Nat),
      lookupStore st (sha256Hex p) = some b →
      getStore st (sha256Hex p) = Except.ok b
      ∧ getStore st ("ipfs://" ++ sha256Hex p) = Except.ok b := by
  intro st p b hb
  have h1 : resolveCid (sha256Hex p) = sha256Hex p := resolveCid_hexStr (sha256 p)
  have h2 : resolveCid ("ipfs://" ++ sha256Hex p) = sha256Hex p :=
    resolveCid_uri (sha256 p)
  constructor
  · unfold getStore
    rw [h1, hb]
  · unfold getStore
    rw [h2, hb]

/-- Witness for C7: both access forms retrieve a concretely stored
object. -/
theorem get_accepts_both_forms_witness :
    getStore [(sha256Hex [], [1])] (sha256Hex []) = Except.ok [1]
    ∧ getStore [(sha256Hex [], [1])] ("ipfs://" ++ sha256Hex []) = Except.ok [1] :=
  get_accepts_both_forms [(sha256Hex [], [1])] [] [1]
    (by rw [lookupStore, if_pos rfl])

/-- C8: get fails with the not-found condition exactly when no object
exists under the resolved key, returns the stored bytes exactly when one
does, and the not-found condition is distinguishable from a generic
storage failure. -/
theorem get_notFound_iff :
    ∀ (st : Store) (cid : String),
      ((getStore st cid = Except.error StoreErr.notFound)
        ↔ lookupStore st (resolveCid cid) = none)
      ∧ (∀ b, (getStore st cid = Except.ok b)
        ↔ lookupStore st (resolveCid cid) = some b)
      ∧ StoreErr.notFound ≠ StoreErr.storageFailure := by
  intro st cid
  refine ⟨?_, fun b => ?_, by decide⟩
  · unfold getStore
    cases hl : lookupStore st (resolveCid cid) <;> simp
  · unfold getStore
    cases hl : lookupStore st (resolveCid cid) <;> simp

/-- C9: execution of the deploy body never reaches the duplicated second
body: the function is equivalent to its truncation at the first return,
returns unconditionally with the dictionary keyed REGISTRY_ADDRESS and
DEPLOYER_ADDRESS, and has registered the three contract names. -/
theorem deploy_dead_second_body :
    ∀ (dep : Nat) (s : DState),
      execD dep deployProgram s = execD dep deployFirstBody s
      ∧ Option.map (List.map Prod.fst) (execD dep deployProgram s).2
        = some ["REGISTRY_ADDRESS", "DEPLOYER_ADDRESS"]
      ∧ ((execD dep deployProgram s).1.registryMap.map Prod.fst).take 3
        = [keccak256 (strBytes "PolicyRegistry"),
           keccak256 (strBytes "BranchManager"),
           keccak256 (strBytes "CommitLedger")] := by
  intro dep s
  refine ⟨?_, rfl, rfl⟩
  exact execD_append_ret dep
    [DStep.deployC "Registry" [],
     DStep.deployC "PolicyRegistry" [],
     DStep.deployC "CommitLedger" [],
     DStep.deployC "BranchManager" ["CommitLedger", "PolicyRegistry"],
     DStep.registerC "CommitLedger",
     DStep.registerC "BranchManager",
     DStep.registerC "PolicyRegistry"] s deployDeadBody

/-- C10: the commit operation uses the fixed Keccak-256 constants of the
texts client1,client2 and lr=0.01,bs=32 for the clients and
hyperparameters hashes, and the derived id is a function of the artifact
bytes, the round and the parent sequence alone, so equal inputs derive
the identical id. -/
theorem fixed_metadata_hashes :
    ∀ (data : List Nat) (round : Nat) (pbs : List (List Nat)),
      (commitCore data round pbs).clientsHash
        = keccak256 (strBytes "client1,client2")
      ∧ (commitCore data round pbs).hyperparamsHash
        = keccak256 (strBytes "lr=0.01,bs=32")
      ∧ (commitCore data round pbs).id
        = deriveId pbs round (keccak256 (strBytes "client1,client2"))
            (keccak256 (strBytes "lr=0.01,bs=32"))
            (hexToBytes (sha256Hex data).data)
            (strBytes ("ipfs://" ++ sha256Hex data)) :=
  fun _ _ _ => ⟨rfl, rfl, rfl⟩

end FLVCS

